import Mathlib

/-!
# Verification of the pz_mod_builder validation + packaging engine

Shallow embedding of the repository's core logic:

* `ModInfo` (from `pz_mod_builder/mod_info.py`): descriptor parsing
  (`_parse_content`), serialization (`to_string`) and self-validation
  (`validate`).
* `ModBuilder` (from `src/pz_mod_builder/mod_builder.py`): package-root
  validation (`validate`), packaging (`build`, `_create_zip`) and the
  directory scanner (`get_file_list`).

Python strings are modelled as `List Char` (`PyStr`).  Python's
`str.strip()` is modelled over the ASCII whitespace set; `str.lower()` and
path suffix computation follow CPython's `pathlib.PurePath.suffix`
(`0 < rfind('.') < len(name) - 1`).
-/

set_option maxRecDepth 4000

/-- Python strings, modelled as lists of characters. -/
abbrev PyStr := List Char

/-- Coerce a Lean string literal to the `List Char` model. -/
abbrev str (s : String) : PyStr := s.toList

/-- ASCII whitespace, as recognised by Python's `str.strip()`. -/
def isPySpace (c : Char) : Bool :=
  List.contains [' ', '\t', '\n', '\r', '\x0b', '\x0c'] c

/-- Python `str.strip()`: drop leading and trailing whitespace. -/
def pyStrip (l : PyStr) : PyStr :=
  ((l.dropWhile isPySpace).reverse.dropWhile isPySpace).reverse

/-- Python `str.split(sep)` for a one-character separator: split on every
occurrence, keeping empty pieces. -/
def splitOnChar (sep : Char) : PyStr → List PyStr
  | [] => [[]]
  | c :: cs =>
    if c = sep then [] :: splitOnChar sep cs
    else
      match splitOnChar sep cs with
      | [] => [[c]]
      | a :: as => (c :: a) :: as

/-- Python `str.split(sep, 1)` when `sep` occurs: the part before the first
occurrence and the part after it. -/
def splitFirst (sep : Char) : PyStr → PyStr × PyStr
  | [] => ([], [])
  | c :: cs =>
    if c = sep then ([], cs)
    else
      let kv := splitFirst sep cs
      (c :: kv.1, kv.2)

/-- Python `sep.join(xs)` for a one-character separator. -/
def joinChar (sep : Char) : List PyStr → PyStr
  | [] => []
  | [x] => x
  | x :: y :: xs => x ++ sep :: joinChar sep (y :: xs)

/-- Python `s.startswith(c)` for a single character. -/
def startsWithChar (c : Char) (l : PyStr) : Bool :=
  l.head? = some c

/--
The in-memory descriptor record (`ModInfo.__init__` field-for-field):
all fields default to the empty string except `version = "1.0"`,
`pzversion = "b42"` and the empty `require` list.
-/
@[ext]
structure ModInfo where
  name : PyStr := []
  id : PyStr := []
  description : PyStr := []
  poster : PyStr := []
  tile : PyStr := []
  authors : PyStr := []
  version : PyStr := str "1.0"
  url : PyStr := []
  modversion : PyStr := []
  pzversion : PyStr := str "b42"
  require : List PyStr := []
  deriving DecidableEq, Repr

/-- The record produced by `ModInfo()` with no file argument. -/
def ModInfo.init : ModInfo := {}

/-- The recognised-key dispatch chain inside `ModInfo._parse_content`
(the body of `if key == 'name': ... elif ...`); unrecognised keys are
silently ignored.  `require` values are split on commas, trimmed, and
empty tokens dropped. -/
def ModInfo.setKV (m : ModInfo) (key value : PyStr) : ModInfo :=
  if key = str "name" then { m with name := value }
  else if key = str "id" then { m with id := value }
  else if key = str "description" then { m with description := value }
  else if key = str "poster" then { m with poster := value }
  else if key = str "tile" then { m with tile := value }
  else if key = str "authors" then { m with authors := value }
  else if key = str "version" then { m with version := value }
  else if key = str "url" then { m with url := value }
  else if key = str "modversion" then { m with modversion := value }
  else if key = str "pzversion" then { m with pzversion := value }
  else if key = str "require" then
    { m with require := ((splitOnChar ',' value).map pyStrip).filter (· ≠ []) }
  else m

/-- One iteration of the line loop in `ModInfo._parse_content`: strip the
line, skip blank and `#`-comment lines, and treat a line as data exactly
when it contains `=`, splitting on the first `=` and trimming both parts. -/
def ModInfo.parseLine (m : ModInfo) (rawLine : PyStr) : ModInfo :=
  let line := pyStrip rawLine
  if line = [] then m
  else if startsWithChar '#' line then m
  else if '=' ∈ line then
    let kv := splitFirst '=' line
    m.setKV (pyStrip kv.1) (pyStrip kv.2)
  else m

/-- Embeds `ModInfo._parse_content`: fold the line loop over `content.split('\n')`. -/
def ModInfo.parseContent (m : ModInfo) (content : PyStr) : ModInfo :=
  (splitOnChar '\n' content).foldl ModInfo.parseLine m

/-- The conditional `lines.append(f"{key}={value}")` sequence of
`ModInfo.to_string`: one `key=value` line per truthy field, in the fixed
field order. -/
def ModInfo.toLines (m : ModInfo) : List PyStr :=
  (if m.name ≠ [] then [str "name=" ++ m.name] else []) ++
  ((if m.id ≠ [] then [str "id=" ++ m.id] else []) ++
  ((if m.description ≠ [] then [str "description=" ++ m.description] else []) ++
  ((if m.poster ≠ [] then [str "poster=" ++ m.poster] else []) ++
  ((if m.tile ≠ [] then [str "tile=" ++ m.tile] else []) ++
  ((if m.authors ≠ [] then [str "authors=" ++ m.authors] else []) ++
  ((if m.version ≠ [] then [str "version=" ++ m.version] else []) ++
  ((if m.url ≠ [] then [str "url=" ++ m.url] else []) ++
  ((if m.modversion ≠ [] then [str "modversion=" ++ m.modversion] else []) ++
  ((if m.pzversion ≠ [] then [str "pzversion=" ++ m.pzversion] else []) ++
  (if m.require ≠ [] then [str "require=" ++ joinChar ',' m.require] else []))))))))))

/-- Embeds `ModInfo.to_string`: `'\n'.join(lines) + '\n'`. -/
def ModInfo.toString (m : ModInfo) : PyStr :=
  joinChar '\n' m.toLines ++ ['\n']

/-- Membership in `[A-Za-z0-9_]`. -/
def isWordChar (c : Char) : Bool :=
  ('A' ≤ c && c ≤ 'Z') || ('a' ≤ c && c ≤ 'z') || ('0' ≤ c && c ≤ '9') || c == '_'

/-- Truthiness of Python's `re.match(r'^[A-Za-z0-9_]+$', s)`: the whole
string is one-or-more word characters, where `$` also matches just before
a single trailing newline. -/
def idFormatOk (s : PyStr) : Bool :=
  (!s.isEmpty && s.all isWordChar) ||
  (s.getLast? = some '\n' && !s.dropLast.isEmpty && s.dropLast.all isWordChar)

/-- Embeds `ModInfo.validate`: the four sequential `errors.append` checks. -/
def ModInfo.validate (m : ModInfo) : List PyStr :=
  (if m.name = [] then [str "Mod name is required"] else []) ++
  (if m.id = [] then [str "Mod ID is required"] else []) ++
  (if m.id ≠ [] ∧ ¬ idFormatOk m.id then
    [str "Mod ID must contain only letters, numbers, and underscores"] else []) ++
  (if m.description = [] then [str "Mod description is required"] else [])

/-- One filesystem object under the package root, as seen by
`Path.rglob('*')`: its root-relative path (`/`-separated), whether it is a
regular file (else a directory), and whether `PIL.Image.open` + `verify`
succeeds on it (the external image-verification capability, an oracle bit;
it is `false` for directories, which PIL cannot open). -/
structure Entry where
  path : PyStr
  isFile : Bool
  validImage : Bool
  deriving DecidableEq, Repr

/-- A built artifact sitting in the output directory. -/
inductive Artifact where
  /-- A `.zip` archive and its entry names, in write order. -/
  | zipArchive (entries : List PyStr)
  /-- A `shutil.copytree` replica of the root tree. -/
  | dirCopy (entries : List Entry)
  /-- Arbitrary pre-existing content at an output path. -/
  | stale (tag : PyStr)
  deriving DecidableEq, Repr

/-- The filesystem state a `ModBuilder` call runs against: the package
root's entries in `rglob` traversal order (a directory's children are
listed before the children of its subdirectories), and the output
directory as a name → artifact association. -/
structure World where
  rootEntries : List Entry
  output : List (PyStr × Artifact)
  deriving DecidableEq, Repr

/-- Embeds `Path.rglob('*')` over the root: returns the traversal and leaves the
filesystem untouched. -/
def World.rglobOp (w : World) : List Entry × World :=
  (w.rootEntries, w)

/-- Embeds `(mod_path / p).exists()`: a read-only probe of the root tree. -/
def World.existsOp (w : World) (p : PyStr) : Bool × World :=
  (w.rootEntries.any (fun e => e.path = p), w)

/-- Embeds `Image.open(path); img.verify()` wrapped in
`except (IOError, UnidentifiedImageError)`: succeeds exactly when the path
names a regular file whose bytes verify as an image (directories raise
`IsADirectoryError ⊆ IOError`).  Read-only. -/
def World.openVerifyOp (w : World) (p : PyStr) : Bool × World :=
  (match w.rootEntries.find? (fun e => e.path = p) with
   | some e => e.isFile && e.validImage
   | none => false, w)

/-- Replace (or create) the binding of an output name. -/
def setOutput (out : List (PyStr × Artifact)) (k : PyStr) (v : Artifact) :
    List (PyStr × Artifact) :=
  (k, v) :: out.filter (fun p => p.1 ≠ k)

/-- Look up an output name. -/
def lookupOutput (out : List (PyStr × Artifact)) (k : PyStr) : Option Artifact :=
  (out.find? (fun p => p.1 = k)).map (·.2)

/-- Embeds `zipfile.ZipFile(zip_path, 'w', ...)` then writing the given entries:
`'w'` mode truncates, so any pre-existing file at the archive path is
replaced in full. -/
def World.createZipOp (w : World) (k : PyStr) (es : List PyStr) : World :=
  { w with output := setOutput w.output k (.zipArchive es) }

/-- Embeds `shutil.rmtree(dest)` (when it exists) followed by
`shutil.copytree(mod_path, dest)`: the destination binding is replaced by
a full copy of the root tree. -/
def World.replaceTreeOp (w : World) (k : PyStr) (es : List Entry) : World :=
  { w with output := setOutput w.output k (.dirCopy es) }

/-- The build context: `ModBuilder.__init__` keeps the root path (only its
final component matters for naming) and the descriptor parsed from
`mod.info` when that file existed at construction time. -/
structure ModBuilder where
  rootName : PyStr
  modInfo : Option ModInfo
  deriving DecidableEq, Repr

/-- Embeds `PurePath.name` of a root-relative path: the part after the last `/`. -/
def baseName (p : PyStr) : PyStr :=
  (splitOnChar '/' p).getLastD []

/-- Embeds `PurePath.suffix` of a file name, per CPython: the slice from the last
`.` when `0 < rfind('.') < len(name) - 1`, else empty. -/
def pySuffix (nm : PyStr) : PyStr :=
  let tailAfterDot := nm.reverse.takeWhile (fun c => c ≠ '.')
  if tailAfterDot.length = nm.length then []
  else
    let i := nm.length - tailAfterDot.length - 1
    if 0 < i ∧ i < nm.length - 1 then nm.drop i else []

/-- Embeds `ModBuilder.VALID_EXTENSIONS`, the fixed whitelist. -/
def VALID_EXTENSIONS : List PyStr :=
  [str ".lua", str ".txt", str ".png", str ".ogg", str ".wav", str ".xml",
   str ".json", str ".fbx", str ".bin", str ".tiles", str ".tmx", str ".tsx"]

/-- Embeds `file_path.suffix.lower()` (ASCII lowering; the whitelist is ASCII). -/
def entryExt (e : Entry) : PyStr :=
  (pySuffix (baseName e.path)).map Char.toLower

/-- The descriptor-presence block of `ModBuilder.validate`: missing file
appends the single issue; otherwise (`elif self.mod_info`) the record's
own issues are appended in their defined order. -/
def ModBuilder.infoIssues (b : ModBuilder) (w : World) : List PyStr :=
  if (w.existsOp (str "mod.info")).1 = false then [str "Missing mod.info file"]
  else match b.modInfo with
    | some mi => mi.validate
    | none => []

/-- The poster block of `ModBuilder.validate`:
`if self.mod_info and self.mod_info.poster`, then existence check, then
open-and-verify with failures caught and reported. -/
def ModBuilder.posterIssues (b : ModBuilder) (w : World) : List PyStr :=
  match b.modInfo with
  | some mi =>
    if mi.poster ≠ [] then
      if (w.existsOp mi.poster).1 = false then
        [str "Poster image not found: " ++ mi.poster]
      else if (w.openVerifyOp mi.poster).1 then []
      else [str "Invalid poster image: " ++ mi.poster]
    else []
  | none => []

/-- The tile block of `ModBuilder.validate`, same shape as the poster
block. -/
def ModBuilder.tileIssues (b : ModBuilder) (w : World) : List PyStr :=
  match b.modInfo with
  | some mi =>
    if mi.tile ≠ [] then
      if (w.existsOp mi.tile).1 = false then
        [str "Tile image not found: " ++ mi.tile]
      else if (w.openVerifyOp mi.tile).1 then []
      else [str "Invalid tile image: " ++ mi.tile]
    else []
  | none => []

/-- The per-entry body of the extension loop of `ModBuilder.validate`:
flag regular files not named `mod.info` whose lowered suffix is non-empty
and not whitelisted. -/
def extFlag (e : Entry) : Option PyStr :=
  if e.isFile ∧ baseName e.path ≠ str "mod.info" then
    if entryExt e ≠ [] ∧ entryExt e ∉ VALID_EXTENSIONS then
      some (str "Unusual file extension: " ++ e.path)
    else none
  else none

/-- The extension loop of `ModBuilder.validate`, over the `rglob`
traversal in traversal order. -/
def extensionIssues (es : List Entry) : List PyStr :=
  es.filterMap extFlag

/-- Embeds `ModBuilder.validate`: threads the filesystem state through each
probe and returns the four issue groups concatenated in program order.
It is a total function: recoverable conditions become issues, never
exceptions. -/
def ModBuilder.validate (b : ModBuilder) (w : World) : List PyStr × World :=
  let r0 := w.existsOp (str "mod.info")
  let w0 := r0.2
  let g1 := b.infoIssues w
  let r1 := match b.modInfo with
    | some mi => if mi.poster ≠ [] then w0.existsOp mi.poster else (false, w0)
    | none => (false, w0)
  let w1 := r1.2
  let g2 := b.posterIssues w
  let r2 := match b.modInfo with
    | some mi => if mi.tile ≠ [] then w1.existsOp mi.tile else (false, w1)
    | none => (false, w1)
  let w2 := r2.2
  let g3 := b.tileIssues w
  let r3 := w2.rglobOp
  let g4 := extensionIssues r3.1
  (g1 ++ g2 ++ g3 ++ g4, r3.2)

/-- Order used by `ModBuilder.get_file_list`: relative paths of all regular files under
the root, lexicographically sorted (Python `sorted` on strings). -/
def lexLe : PyStr → PyStr → Bool
  | [], _ => true
  | _ :: _, [] => false
  | a :: as, b :: bs => if a = b then lexLe as bs else decide (a < b)

/-- Embeds `ModBuilder.get_file_list` (see `lexLe` for the string order). -/
def getFileList (w : World) : List PyStr :=
  List.insertionSort (fun a b => lexLe a b = true)
    ((w.rootEntries.filter (·.isFile)).map (·.path))

/-- The artifact base name: `self.mod_info.id` if a record was loaded and
its `id` is truthy, else the root directory's name. -/
def ModBuilder.modName (b : ModBuilder) : PyStr :=
  match b.modInfo with
  | some mi => if mi.id ≠ [] then mi.id else b.rootName
  | none => b.rootName

/-- The file list written by `ModBuilder._create_zip`: every regular file
in traversal order except those whose own name starts with `.`, stored
under its root-relative path (no directory entries). -/
def zipFileList (es : List Entry) : List PyStr :=
  es.filterMap (fun e =>
    if e.isFile ∧ startsWithChar '.' (baseName e.path) = false then some e.path
    else none)

/-- Embeds `ModBuilder.build`: resolve the artifact name, then either write the
archive `output_dir/<name>.zip` or replace the directory
`output_dir/<name>` with a full copy of the root tree.  (Creation of
`output_dir` itself is implicit in the output-map model.)  Returns the
artifact path relative to `output_dir` together with the new filesystem
state. -/
def ModBuilder.build (b : ModBuilder) (zipFile : Bool) (w : World) :
    PyStr × World :=
  let name := b.modName
  if zipFile then
    let r := w.rglobOp
    (name ++ str ".zip", r.2.createZipOp (name ++ str ".zip") (zipFileList r.1))
  else
    let r := w.rglobOp
    (name, r.2.replaceTreeOp name r.1)

/-- A record with every field non-empty (as the round-trip claim assumes)
whose `name` carries a leading space: serialization writes `name= x`, but
parsing strips values, so the original value is not reproduced. -/
def c1CexRecord : ModInfo :=
  { name := str " x", id := str "M", description := str "d",
    poster := str "p", tile := str "t", authors := str "a",
    version := str "1.0", url := str "u", modversion := str "m",
    pzversion := str "b42", require := [str "r"] }

/-- A fully well-formed record exercising every field, including a
two-entry `require` list. -/
def c1WitRecord : ModInfo :=
  { name := str "Test Mod", id := str "TestMod",
    description := str "Test Description", poster := str "poster.png",
    tile := str "tile.png", authors := str "A. Author",
    version := str "1.0", url := str "http://example.com",
    modversion := str "2", pzversion := str "b42",
    require := [str "BaseMod", str "OtherMod"] }

/-- A context whose root has no descriptor and one oddly-named file. -/
def c7WitBuilder : ModBuilder := ⟨str "mymod", none⟩

/-- The root for `c7WitBuilder`: no `mod.info`, one `.obj` file. -/
def c7WitWorld : World := ⟨[⟨str "thing.obj", true, false⟩], []⟩

/-- The descriptor of the end-to-end scenario: metadata complete, poster
and tile declared. -/
def c6WitInfo : ModInfo :=
  { ModInfo.init with
    name := str "Test Mod", id := str "TestMod",
    description := str "Test Description",
    poster := str "poster.png", tile := str "tile.png" }

/-- Build context for the end-to-end scenario. -/
def c6WitBuilder : ModBuilder := ⟨str "test_mod", some c6WitInfo⟩

/-- Root for the end-to-end scenario: the descriptor file exists, the
declared images do not. -/
def c6WitWorld : World := ⟨[⟨str "mod.info", true, false⟩], []⟩

/-- Build context with no record for the C3 counterexample. -/
def c3CexBuilder : ModBuilder := ⟨str "m", none⟩

/-- A root holding a file named `mod.info` inside a subdirectory: not the
descriptor file, extension `.info` not whitelisted. -/
def c3CexWorld : World :=
  ⟨[⟨str "sub", false, false⟩, ⟨str "sub/mod.info", true, false⟩], []⟩

/-- Build context with no record for the C2 counterexample. -/
def c2CexBuilder : ModBuilder := ⟨str "m", none⟩

/-- A root with a subdirectory `a`, a root-level file `b.bad` and a
nested file `a/x.bad`, listed in `rglob` traversal order (a directory's
children come before the children of its subdirectories even when each
directory listing is itself sorted). -/
def c2CexWorld : World :=
  ⟨[⟨str "a", false, false⟩, ⟨str "b.bad", true, false⟩,
    ⟨str "a/x.bad", true, false⟩], []⟩

/-- A root containing a hidden directory `.cache` with a regular file in
it, plus a root-level dotfile. -/
def c10World : World :=
  ⟨[⟨str ".cache", false, false⟩, ⟨str ".cache/data.txt", true, false⟩,
    ⟨str ".hidden", true, false⟩], []⟩

/-- A list all of whose characters fail `p` is untouched by `dropWhile`. -/
theorem dropWhile_eq_self_of_all (p : Char → Bool) (l : PyStr)
    (h : ∀ c ∈ l, p c = false) : l.dropWhile p = l := by
  cases l with
  | nil => rfl
  | cons a t => simp [List.dropWhile_cons, h a (by simp)]

/-- If `dropWhile` leaves a nonempty list unchanged, its head fails `p`. -/
theorem dropWhile_head_false (p : Char → Bool) (a : Char) (t : PyStr)
    (h : (a :: t).dropWhile p = a :: t) : p a = false := by
  by_contra hpa
  rw [Bool.not_eq_false] at hpa
  rw [List.dropWhile_cons, if_pos hpa] at h
  have h1 := congrArg List.length h
  have h2 := (List.dropWhile_suffix (l := t) p).sublist.length_le
  simp at h1
  omega

/-- A `pyStrip` fixed point is untouched by both one-sided trims. -/
theorem strip_parts (v : PyStr) (h : pyStrip v = v) :
    v.dropWhile isPySpace = v ∧ v.reverse.dropWhile isPySpace = v.reverse := by
  have hlen1 : (v.dropWhile isPySpace).length ≤ v.length :=
    (List.dropWhile_suffix isPySpace).sublist.length_le
  have hlen2 : ((v.dropWhile isPySpace).reverse.dropWhile isPySpace).length ≤
      (v.dropWhile isPySpace).length := by
    simpa using
      (List.dropWhile_suffix (l := (v.dropWhile isPySpace).reverse) isPySpace).sublist.length_le
  have hlen3 := congrArg List.length h
  rw [pyStrip, List.length_reverse] at hlen3
  have hd : v.dropWhile isPySpace = v :=
    (List.dropWhile_suffix isPySpace).sublist.eq_of_length (by omega)
  refine ⟨hd, ?_⟩
  rw [pyStrip, hd] at h
  have h4 := congrArg List.reverse h
  rwa [List.reverse_reverse] at h4

/-- A nonempty `pyStrip` fixed point has a non-whitespace first character. -/
theorem head_false_of_strip_fix (v : PyStr) (a : Char) (hv : pyStrip v = v)
    (ha : v.head? = some a) : isPySpace a = false := by
  obtain ⟨h1, _⟩ := strip_parts v hv
  cases v with
  | nil => simp at ha
  | cons b t =>
    simp at ha
    exact ha ▸ dropWhile_head_false isPySpace b t h1

/-- A nonempty `pyStrip` fixed point has a non-whitespace last character. -/
theorem last_false_of_strip_fix (v : PyStr) (a : Char) (hv : pyStrip v = v)
    (ha : v.getLast? = some a) : isPySpace a = false := by
  obtain ⟨_, h2⟩ := strip_parts v hv
  rw [← List.head?_reverse] at ha
  cases hrev : v.reverse with
  | nil => rw [hrev] at ha; simp at ha
  | cons b t =>
    rw [hrev] at ha h2
    simp at ha
    exact ha ▸ dropWhile_head_false isPySpace b t h2

/-- The function `pyStrip` fixes a list whose two end characters are not whitespace. -/
theorem pyStrip_eq_self_of_ends (l : PyStr)
    (h1 : ∀ a, l.head? = some a → isPySpace a = false)
    (h2 : ∀ a, l.getLast? = some a → isPySpace a = false) :
    pyStrip l = l := by
  cases l with
  | nil => rfl
  | cons a t =>
    have hd : (a :: t).dropWhile isPySpace = a :: t := by
      rw [List.dropWhile_cons, if_neg]
      simp [h1 a rfl]
    rw [pyStrip, hd]
    cases hrev : (a :: t).reverse with
    | nil => simp at hrev
    | cons b s =>
      have hb : (a :: t).getLast? = some b := by
        rw [← List.head?_reverse, hrev]; rfl
      have hds : List.dropWhile isPySpace (b :: s) = b :: s := by
        rw [List.dropWhile_cons, if_neg (by simp [h2 b hb])]
      rw [hds, ← hrev, List.reverse_reverse]

/-- Prepending non-whitespace characters to a `pyStrip` fixed point gives a
`pyStrip` fixed point. -/
theorem pyStrip_key_append (k v : PyStr) (hk : k ≠ [])
    (hkall : ∀ c ∈ k, isPySpace c = false) (hv : pyStrip v = v) :
    pyStrip (k ++ v) = k ++ v := by
  apply pyStrip_eq_self_of_ends
  · intro a ha
    cases k with
    | nil => exact absurd rfl hk
    | cons c k' =>
      rw [List.cons_append] at ha
      simp at ha
      exact ha ▸ hkall c (by simp)
  · intro a ha
    cases v with
    | nil =>
      rw [List.append_nil] at ha
      obtain ⟨hne, heq⟩ := List.mem_getLast?_eq_getLast ha
      exact hkall a (heq ▸ List.getLast_mem hne)
    | cons d t =>
      rw [List.getLast?_append_of_ne_nil k (by simp)] at ha
      exact last_false_of_strip_fix (d :: t) a hv ha

/-- Behaviour of `str.split(sep, 1)` around the first separator occurrence. -/
theorem splitFirst_append (sep : Char) (k v : PyStr) (hk : sep ∉ k) :
    splitFirst sep (k ++ sep :: v) = (k, v) := by
  induction k with
  | nil => simp [splitFirst]
  | cons c k' ih =>
    simp only [List.mem_cons, not_or] at hk
    rw [List.cons_append, splitFirst, if_neg (fun h => hk.1 h.symm),
      ih hk.2]

/-- Splitting a separator-free list is the identity (one piece). -/
theorem splitOnChar_no_sep (sep : Char) (x : PyStr) (h : sep ∉ x) :
    splitOnChar sep x = [x] := by
  induction x with
  | nil => rfl
  | cons c cs ih =>
    simp only [List.mem_cons, not_or] at h
    rw [splitOnChar, if_neg (fun hc => h.1 hc.symm), ih h.2]

/-- Splitting peels off one separator-free piece at a time. -/
theorem splitOnChar_append (sep : Char) (x rest : PyStr) (h : sep ∉ x) :
    splitOnChar sep (x ++ sep :: rest) = x :: splitOnChar sep rest := by
  induction x with
  | nil => simp [splitOnChar]
  | cons c cs ih =>
    simp only [List.mem_cons, not_or] at h
    rw [List.cons_append, splitOnChar, if_neg (fun hc => h.1 hc.symm),
      ih h.2]

/-- Splitting undoes joining on separator-free pieces. -/
theorem splitOnChar_joinChar (sep : Char) (xs : List PyStr) (hxs : xs ≠ [])
    (h : ∀ x ∈ xs, sep ∉ x) :
    splitOnChar sep (joinChar sep xs) = xs := by
  induction xs with
  | nil => exact absurd rfl hxs
  | cons x ys ih =>
    cases ys with
    | nil => exact splitOnChar_no_sep sep x (h x (by simp))
    | cons y zs =>
      rw [joinChar, splitOnChar_append sep x _ (h x (by simp)),
        ih (by simp) (fun z hz => h z (by simp [hz]))]

/-- Appending a trailing empty piece to a `join`. -/
theorem joinChar_append_nil (sep : Char) (xs : List PyStr) (hxs : xs ≠ []) :
    joinChar sep (xs ++ [[]]) = joinChar sep xs ++ [sep] := by
  induction xs with
  | nil => exact absurd rfl hxs
  | cons x ys ih =>
    cases ys with
    | nil => rfl
    | cons y zs =>
      have ihy := ih (by simp)
      rw [List.cons_append] at ihy
      rw [List.cons_append, List.cons_append, joinChar, ihy]
      simp [joinChar]

/-- Splitting `'\n'.join(lines) + '\n'` recovers the lines plus one
trailing empty piece. -/
theorem splitOnChar_join_term (sep : Char) (xs : List PyStr) (hxs : xs ≠ [])
    (h : ∀ x ∈ xs, sep ∉ x) :
    splitOnChar sep (joinChar sep xs ++ [sep]) = xs ++ [[]] := by
  rw [← joinChar_append_nil sep xs hxs]
  exact splitOnChar_joinChar sep (xs ++ [[]])
    (by simp) (by intro x hx; rcases List.mem_append.mp hx with h1 | h1
                  · exact h x h1
                  · simp at h1; simp [h1])

/-- Characters of a `join` are separator occurrences or piece characters. -/
theorem mem_joinChar (sep c : Char) (xs : List PyStr)
    (hc : c ∈ joinChar sep xs) : c = sep ∨ ∃ x ∈ xs, c ∈ x := by
  induction xs with
  | nil => simp [joinChar] at hc
  | cons x ys ih =>
    cases ys with
    | nil => exact Or.inr ⟨x, by simp, hc⟩
    | cons y zs =>
      rw [joinChar] at hc
      rcases List.mem_append.mp hc with h1 | h1
      · exact Or.inr ⟨x, by simp, h1⟩
      · rcases List.mem_cons.mp h1 with h2 | h2
        · exact Or.inl h2
        · rcases ih h2 with h3 | ⟨z, hz, hcz⟩
          · exact Or.inl h3
          · exact Or.inr ⟨z, by simp [List.mem_cons.mp hz], hcz⟩

/-- The line loop skips empty lines. -/
theorem parseLine_nil (m : ModInfo) : ModInfo.parseLine m [] = m := rfl

/-- The line loop on a well-formed `key=value` line dispatches on the key
with the trimmed value. -/
theorem parseLine_keyline (m : ModInfo) (k v : PyStr) (hk : k ≠ [])
    (hkns : ∀ c ∈ k, isPySpace c = false) (hkeq : '=' ∉ k)
    (hkhash : k.head? ≠ some '#') (hv : pyStrip v = v) :
    ModInfo.parseLine m (k ++ '=' :: v) = m.setKV k v := by
  have hline : pyStrip (k ++ '=' :: v) = k ++ '=' :: v := by
    rw [show k ++ '=' :: v = (k ++ ['=']) ++ v by simp]
    rw [pyStrip_key_append (k ++ ['=']) v (by simp)
      (fun c hc => by
        rcases List.mem_append.mp hc with h | h
        · exact hkns c h
        · simp at h; rw [h]; rfl) hv]
  have hkstrip : pyStrip k = k := by
    apply pyStrip_eq_self_of_ends
    · intro a ha
      cases k with
      | nil => simp at ha
      | cons c k' => simp at ha; exact ha ▸ hkns c (by simp)
    · intro a ha
      obtain ⟨hne, heq⟩ := List.mem_getLast?_eq_getLast ha
      exact hkns a (heq ▸ List.getLast_mem hne)
  have hne : k ++ '=' :: v ≠ [] := by simp
  have hhash : startsWithChar '#' (k ++ '=' :: v) = false := by
    cases k with
    | nil => exact absurd rfl hk
    | cons c k' =>
      have : (c :: k' ++ '=' :: v).head? = some c := rfl
      simp [startsWithChar, this]
      intro hc
      exact hkhash (by rw [hc]; rfl)
  have hmem : '=' ∈ k ++ '=' :: v := List.mem_append.mpr (Or.inr (by simp))
  rw [ModInfo.parseLine]
  simp only [hline, if_neg hne, hhash, hmem, if_pos, Bool.false_eq_true,
    if_false, if_true, splitFirst_append '=' k v hkeq, hkstrip, hv]

/-- Folding the line loop over an optional line followed by the rest. -/
theorem foldl_parseLine_opt (a : ModInfo) (c : Prop) [Decidable c]
    (line : PyStr) (rest : List PyStr) :
    List.foldl ModInfo.parseLine a ((if c then [line] else []) ++ rest) =
      List.foldl ModInfo.parseLine (if c then ModInfo.parseLine a line else a)
        rest := by
  by_cases h : c <;> simp [h]

/-- Folding the line loop over a final optional line. -/
theorem foldl_parseLine_opt_last (a : ModInfo) (c : Prop) [Decidable c]
    (line : PyStr) :
    List.foldl ModInfo.parseLine a (if c then [line] else []) =
      (if c then ModInfo.parseLine a line else a) := by
  by_cases h : c <;> simp [h]

/-- Membership in an optional singleton followed by the rest. -/
theorem mem_opt_cons (l : PyStr) (c : Prop) [Decidable c] (x : PyStr)
    (rest : List PyStr) :
    (l ∈ (if c then [x] else []) ++ rest) ↔ (c ∧ l = x) ∨ l ∈ rest := by
  by_cases h : c <;> simp [h]

/-- Membership in a final optional singleton. -/
theorem mem_opt_last (l : PyStr) (c : Prop) [Decidable c] (x : PyStr) :
    (l ∈ (if c then [x] else [])) ↔ (c ∧ l = x) := by
  by_cases h : c <;> simp [h]

/-- The serialized lines of a record, characterised: one `key=value` line
per non-empty field. -/
theorem mem_toLines (m : ModInfo) (l : PyStr) :
    l ∈ m.toLines ↔
      (m.name ≠ [] ∧ l = str "name=" ++ m.name) ∨
      (m.id ≠ [] ∧ l = str "id=" ++ m.id) ∨
      (m.description ≠ [] ∧ l = str "description=" ++ m.description) ∨
      (m.poster ≠ [] ∧ l = str "poster=" ++ m.poster) ∨
      (m.tile ≠ [] ∧ l = str "tile=" ++ m.tile) ∨
      (m.authors ≠ [] ∧ l = str "authors=" ++ m.authors) ∨
      (m.version ≠ [] ∧ l = str "version=" ++ m.version) ∨
      (m.url ≠ [] ∧ l = str "url=" ++ m.url) ∨
      (m.modversion ≠ [] ∧ l = str "modversion=" ++ m.modversion) ∨
      (m.pzversion ≠ [] ∧ l = str "pzversion=" ++ m.pzversion) ∨
      (m.require ≠ [] ∧ l = str "require=" ++ joinChar ',' m.require) := by
  rw [ModInfo.toLines]
  rw [mem_opt_cons, mem_opt_cons, mem_opt_cons, mem_opt_cons, mem_opt_cons,
    mem_opt_cons, mem_opt_cons, mem_opt_cons, mem_opt_cons, mem_opt_cons,
    mem_opt_last]

/-- Head of a `join` with a nonempty first piece. -/
theorem joinChar_head? (sep : Char) (x : PyStr) (ys : List PyStr)
    (hx : x ≠ []) : (joinChar sep (x :: ys)).head? = x.head? := by
  cases ys with
  | nil => rfl
  | cons y zs =>
    rw [joinChar]
    cases x with
    | nil => exact absurd rfl hx
    | cons c t => rfl

/-- A `join` starting from a nonempty piece is nonempty. -/
theorem joinChar_ne_nil (sep : Char) (x : PyStr) (ys : List PyStr)
    (hx : x ≠ []) : joinChar sep (x :: ys) ≠ [] := by
  cases ys with
  | nil => exact hx
  | cons y zs => rw [joinChar]; simp

/-- The last character of a `join` of nonempty pieces is the last character
of one of the pieces. -/
theorem joinChar_getLast? (sep : Char) (xs : List PyStr)
    (h : ∀ x ∈ xs, x ≠ []) (hxs : xs ≠ []) :
    ∃ xl, xl ∈ xs ∧ (joinChar sep xs).getLast? = xl.getLast? := by
  induction xs with
  | nil => exact absurd rfl hxs
  | cons x ys ih =>
    cases ys with
    | nil => exact ⟨x, by simp, rfl⟩
    | cons y zs =>
      obtain ⟨xl, hmem, hlast⟩ := ih (fun z hz => h z (by simp [hz])) (by simp)
      refine ⟨xl, by simp [hmem], ?_⟩
      rw [joinChar, List.getLast?_append_of_ne_nil x (by simp),
        show (sep :: joinChar sep (y :: zs)) = [sep] ++ joinChar sep (y :: zs)
          from rfl,
        List.getLast?_append_of_ne_nil [sep]
          (joinChar_ne_nil sep y zs (h y (by simp)))]
      exact hlast

/-- A comma-join of nonempty stripped pieces is itself stripped. -/
theorem pyStrip_joinComma (reqs : List PyStr)
    (h : ∀ r ∈ reqs, r ≠ [] ∧ pyStrip r = r) :
    pyStrip (joinChar ',' reqs) = joinChar ',' reqs := by
  cases reqs with
  | nil => rfl
  | cons x ys =>
    apply pyStrip_eq_self_of_ends
    · intro a ha
      rw [joinChar_head? ',' x ys (h x (by simp)).1] at ha
      exact head_false_of_strip_fix x a (h x (by simp)).2 ha
    · intro a ha
      obtain ⟨xl, hmem, hlast⟩ :=
        joinChar_getLast? ',' (x :: ys) (fun z hz => (h z hz).1) (by simp)
      rw [hlast] at ha
      exact last_false_of_strip_fix xl a (h xl hmem).2 ha

/-- Mapping a function that fixes every element is the identity. -/
theorem map_id_of_fix (f : PyStr → PyStr) (l : List PyStr)
    (h : ∀ x ∈ l, f x = x) : l.map f = l := by
  induction l with
  | nil => rfl
  | cons x xs ih =>
    rw [List.map_cons, h x (by simp), ih (fun z hz => h z (by simp [hz]))]

/-- The `require` parsing pipeline (split on commas, trim, drop empties)
recovers a list of nonempty, stripped, comma-free entries from its
comma-join. -/
theorem parse_req_list (reqs : List PyStr)
    (h : ∀ r ∈ reqs, r ≠ [] ∧ pyStrip r = r ∧ ',' ∉ r) :
    ((splitOnChar ',' (joinChar ',' reqs)).map pyStrip).filter (· ≠ []) =
      reqs := by
  cases reqs with
  | nil => rfl
  | cons x ys =>
    rw [splitOnChar_joinChar ',' (x :: ys) (by simp)
      (fun z hz => (h z hz).2.2)]
    rw [map_id_of_fix pyStrip (x :: ys) (fun z hz => (h z hz).2.1)]
    rw [List.filter_eq_self.mpr (fun a ha => by simpa using (h a ha).1)]

/-- The line loop on a `name=` line. -/
theorem parseLine_name (a : ModInfo) (v : PyStr) (hv : pyStrip v = v) :
    ModInfo.parseLine a (str "name=" ++ v) = { a with name := v } := by
  rw [show (str "name=" ++ v : PyStr) = str "name" ++ '=' :: v from rfl,
    parseLine_keyline a (str "name") v (by decide) (by decide) (by decide)
      (by decide) hv]
  rfl

/-- The line loop on an `id=` line. -/
theorem parseLine_id (a : ModInfo) (v : PyStr) (hv : pyStrip v = v) :
    ModInfo.parseLine a (str "id=" ++ v) = { a with id := v } := by
  rw [show (str "id=" ++ v : PyStr) = str "id" ++ '=' :: v from rfl,
    parseLine_keyline a (str "id") v (by decide) (by decide) (by decide)
      (by decide) hv]
  rfl

/-- The line loop on a `description=` line. -/
theorem parseLine_description (a : ModInfo) (v : PyStr)
    (hv : pyStrip v = v) :
    ModInfo.parseLine a (str "description=" ++ v) =
      { a with description := v } := by
  rw [show (str "description=" ++ v : PyStr) = str "description" ++ '=' :: v
      from rfl,
    parseLine_keyline a (str "description") v (by decide) (by decide)
      (by decide) (by decide) hv]
  rfl

/-- The line loop on a `poster=` line. -/
theorem parseLine_poster (a : ModInfo) (v : PyStr) (hv : pyStrip v = v) :
    ModInfo.parseLine a (str "poster=" ++ v) = { a with poster := v } := by
  rw [show (str "poster=" ++ v : PyStr) = str "poster" ++ '=' :: v from rfl,
    parseLine_keyline a (str "poster") v (by decide) (by decide) (by decide)
      (by decide) hv]
  rfl

/-- The line loop on a `tile=` line. -/
theorem parseLine_tile (a : ModInfo) (v : PyStr) (hv : pyStrip v = v) :
    ModInfo.parseLine a (str "tile=" ++ v) = { a with tile := v } := by
  rw [show (str "tile=" ++ v : PyStr) = str "tile" ++ '=' :: v from rfl,
    parseLine_keyline a (str "tile") v (by decide) (by decide) (by decide)
      (by decide) hv]
  rfl

/-- The line loop on an `authors=` line. -/
theorem parseLine_authors (a : ModInfo) (v : PyStr) (hv : pyStrip v = v) :
    ModInfo.parseLine a (str "authors=" ++ v) = { a with authors := v } := by
  rw [show (str "authors=" ++ v : PyStr) = str "authors" ++ '=' :: v from rfl,
    parseLine_keyline a (str "authors") v (by decide) (by decide) (by decide)
      (by decide) hv]
  rfl

/-- The line loop on a `version=` line. -/
theorem parseLine_version (a : ModInfo) (v : PyStr) (hv : pyStrip v = v) :
    ModInfo.parseLine a (str "version=" ++ v) = { a with version := v } := by
  rw [show (str "version=" ++ v : PyStr) = str "version" ++ '=' :: v from rfl,
    parseLine_keyline a (str "version") v (by decide) (by decide) (by decide)
      (by decide) hv]
  rfl

/-- The line loop on a `url=` line. -/
theorem parseLine_url (a : ModInfo) (v : PyStr) (hv : pyStrip v = v) :
    ModInfo.parseLine a (str "url=" ++ v) = { a with url := v } := by
  rw [show (str "url=" ++ v : PyStr) = str "url" ++ '=' :: v from rfl,
    parseLine_keyline a (str "url") v (by decide) (by decide) (by decide)
      (by decide) hv]
  rfl

/-- The line loop on a `modversion=` line. -/
theorem parseLine_modversion (a : ModInfo) (v : PyStr) (hv : pyStrip v = v) :
    ModInfo.parseLine a (str "modversion=" ++ v) =
      { a with modversion := v } := by
  rw [show (str "modversion=" ++ v : PyStr) = str "modversion" ++ '=' :: v
      from rfl,
    parseLine_keyline a (str "modversion") v (by decide) (by decide)
      (by decide) (by decide) hv]
  rfl

/-- The line loop on a `pzversion=` line. -/
theorem parseLine_pzversion (a : ModInfo) (v : PyStr) (hv : pyStrip v = v) :
    ModInfo.parseLine a (str "pzversion=" ++ v) =
      { a with pzversion := v } := by
  rw [show (str "pzversion=" ++ v : PyStr) = str "pzversion" ++ '=' :: v
      from rfl,
    parseLine_keyline a (str "pzversion") v (by decide) (by decide)
      (by decide) (by decide) hv]
  rfl

/-- The line loop on a `require=` line with well-formed entries recovers the
entry list. -/
theorem parseLine_require (a : ModInfo) (reqs : List PyStr)
    (h : ∀ r ∈ reqs, r ≠ [] ∧ pyStrip r = r ∧ ',' ∉ r) :
    ModInfo.parseLine a (str "require=" ++ joinChar ',' reqs) =
      { a with require := reqs } := by
  have hjoin := pyStrip_joinComma reqs (fun r hr => ⟨(h r hr).1, (h r hr).2.1⟩)
  rw [show (str "require=" ++ joinChar ',' reqs : PyStr) =
      str "require" ++ '=' :: joinChar ',' reqs from rfl,
    parseLine_keyline a (str "require") _ (by decide) (by decide) (by decide)
      (by decide) hjoin]
  rw [show ModInfo.setKV a (str "require") (joinChar ',' reqs) =
      { a with require :=
        ((splitOnChar ',' (joinChar ',' reqs)).map pyStrip).filter (· ≠ []) }
      from rfl,
    parse_req_list reqs h]

/-- With newline-free values, no serialized line contains a newline. -/
theorem toLines_no_newline (m : ModInfo)
    (hname : '\n' ∉ m.name) (hid : '\n' ∉ m.id)
    (hdesc : '\n' ∉ m.description) (hposter : '\n' ∉ m.poster)
    (htile : '\n' ∉ m.tile) (hauth : '\n' ∉ m.authors)
    (hver : '\n' ∉ m.version) (hurl : '\n' ∉ m.url)
    (hmodv : '\n' ∉ m.modversion) (hpzv : '\n' ∉ m.pzversion)
    (hreq : ∀ r ∈ m.require, '\n' ∉ r) :
    ∀ l ∈ m.toLines, '\n' ∉ l := by
  intro l hl hnl
  rw [mem_toLines] at hl
  rcases hl with ⟨_, rfl⟩ | ⟨_, rfl⟩ | ⟨_, rfl⟩ | ⟨_, rfl⟩ | ⟨_, rfl⟩ |
    ⟨_, rfl⟩ | ⟨_, rfl⟩ | ⟨_, rfl⟩ | ⟨_, rfl⟩ | ⟨_, rfl⟩ | ⟨_, rfl⟩
  · rcases List.mem_append.mp hnl with h | h
    · exact absurd h (by decide)
    · exact hname h
  · rcases List.mem_append.mp hnl with h | h
    · exact absurd h (by decide)
    · exact hid h
  · rcases List.mem_append.mp hnl with h | h
    · exact absurd h (by decide)
    · exact hdesc h
  · rcases List.mem_append.mp hnl with h | h
    · exact absurd h (by decide)
    · exact hposter h
  · rcases List.mem_append.mp hnl with h | h
    · exact absurd h (by decide)
    · exact htile h
  · rcases List.mem_append.mp hnl with h | h
    · exact absurd h (by decide)
    · exact hauth h
  · rcases List.mem_append.mp hnl with h | h
    · exact absurd h (by decide)
    · exact hver h
  · rcases List.mem_append.mp hnl with h | h
    · exact absurd h (by decide)
    · exact hurl h
  · rcases List.mem_append.mp hnl with h | h
    · exact absurd h (by decide)
    · exact hmodv h
  · rcases List.mem_append.mp hnl with h | h
    · exact absurd h (by decide)
    · exact hpzv h
  · rcases List.mem_append.mp hnl with h | h
    · exact absurd h (by decide)
    · rcases mem_joinChar ',' '\n' m.require h with h1 | ⟨x, hx, hcx⟩
      · exact absurd h1 (by decide)
      · exact hreq x hx hcx

/-- Parsing a serialized record reduces to folding the line loop over the
serialized lines (the trailing newline contributes a final empty line,
which the loop skips). -/
theorem parseContent_toString (m : ModInfo)
    (hnl : ∀ l ∈ m.toLines, '\n' ∉ l) :
    ModInfo.parseContent ModInfo.init m.toString =
      List.foldl ModInfo.parseLine ModInfo.init m.toLines := by
  rw [ModInfo.parseContent, ModInfo.toString]
  cases h : m.toLines with
  | nil => rfl
  | cons x ys =>
    have hnl' : ∀ l ∈ x :: ys, '\n' ∉ l := h ▸ hnl
    rw [splitOnChar_join_term '\n' (x :: ys) (by simp)
      (fun z hz hc => hnl' z hz hc)]
    rw [List.foldl_append]
    simp [parseLine_nil]

/-- Core round-trip computation: parsing `to_string` of a record whose
values are stripped and newline-free (and whose `require` entries are
additionally nonempty and comma-free) recovers the record, except that
empty `version`/`pzversion` fields come back as their defaults. -/
theorem roundTrip_core (m : ModInfo)
    (hname : pyStrip m.name = m.name ∧ '\n' ∉ m.name)
    (hid : pyStrip m.id = m.id ∧ '\n' ∉ m.id)
    (hdesc : pyStrip m.description = m.description ∧ '\n' ∉ m.description)
    (hposter : pyStrip m.poster = m.poster ∧ '\n' ∉ m.poster)
    (htile : pyStrip m.tile = m.tile ∧ '\n' ∉ m.tile)
    (hauth : pyStrip m.authors = m.authors ∧ '\n' ∉ m.authors)
    (hver : pyStrip m.version = m.version ∧ '\n' ∉ m.version)
    (hurl : pyStrip m.url = m.url ∧ '\n' ∉ m.url)
    (hmodv : pyStrip m.modversion = m.modversion ∧ '\n' ∉ m.modversion)
    (hpzv : pyStrip m.pzversion = m.pzversion ∧ '\n' ∉ m.pzversion)
    (hreq : ∀ r ∈ m.require, r ≠ [] ∧ pyStrip r = r ∧ '\n' ∉ r ∧ ',' ∉ r) :
    ModInfo.parseContent ModInfo.init m.toString =
      { m with
        version := if m.version = [] then str "1.0" else m.version,
        pzversion := if m.pzversion = [] then str "b42" else m.pzversion } := by
  rw [parseContent_toString m
    (toLines_no_newline m hname.2 hid.2 hdesc.2 hposter.2 htile.2 hauth.2
      hver.2 hurl.2 hmodv.2 hpzv.2 (fun r hr => (hreq r hr).2.2.1))]
  have e1 : ∀ a : ModInfo, ModInfo.parseLine a (str "name=" ++ m.name) =
      { a with name := m.name } := fun a => parseLine_name a m.name hname.1
  have e2 : ∀ a : ModInfo, ModInfo.parseLine a (str "id=" ++ m.id) =
      { a with id := m.id } := fun a => parseLine_id a m.id hid.1
  have e3 : ∀ a : ModInfo,
      ModInfo.parseLine a (str "description=" ++ m.description) =
      { a with description := m.description } :=
    fun a => parseLine_description a m.description hdesc.1
  have e4 : ∀ a : ModInfo, ModInfo.parseLine a (str "poster=" ++ m.poster) =
      { a with poster := m.poster } :=
    fun a => parseLine_poster a m.poster hposter.1
  have e5 : ∀ a : ModInfo, ModInfo.parseLine a (str "tile=" ++ m.tile) =
      { a with tile := m.tile } := fun a => parseLine_tile a m.tile htile.1
  have e6 : ∀ a : ModInfo, ModInfo.parseLine a (str "authors=" ++ m.authors) =
      { a with authors := m.authors } :=
    fun a => parseLine_authors a m.authors hauth.1
  have e7 : ∀ a : ModInfo, ModInfo.parseLine a (str "version=" ++ m.version) =
      { a with version := m.version } :=
    fun a => parseLine_version a m.version hver.1
  have e8 : ∀ a : ModInfo, ModInfo.parseLine a (str "url=" ++ m.url) =
      { a with url := m.url } := fun a => parseLine_url a m.url hurl.1
  have e9 : ∀ a : ModInfo,
      ModInfo.parseLine a (str "modversion=" ++ m.modversion) =
      { a with modversion := m.modversion } :=
    fun a => parseLine_modversion a m.modversion hmodv.1
  have e10 : ∀ a : ModInfo,
      ModInfo.parseLine a (str "pzversion=" ++ m.pzversion) =
      { a with pzversion := m.pzversion } :=
    fun a => parseLine_pzversion a m.pzversion hpzv.1
  have e11 : ∀ a : ModInfo,
      ModInfo.parseLine a (str "require=" ++ joinChar ',' m.require) =
      { a with require := m.require } :=
    fun a => parseLine_require a m.require
      (fun r hr => ⟨(hreq r hr).1, (hreq r hr).2.1, (hreq r hr).2.2.2⟩)
  rw [ModInfo.toLines]
  simp only [foldl_parseLine_opt, foldl_parseLine_opt_last,
    e1, e2, e3, e4, e5, e6, e7, e8, e9, e10, e11]
  ext
  · by_cases hc : m.name = [] <;>
      simp [apply_ite ModInfo.name, ModInfo.init, hc]
  · by_cases hc : m.id = [] <;>
      simp [apply_ite ModInfo.id, ModInfo.init, hc]
  · by_cases hc : m.description = [] <;>
      simp [apply_ite ModInfo.description, ModInfo.init, hc]
  · by_cases hc : m.poster = [] <;>
      simp [apply_ite ModInfo.poster, ModInfo.init, hc]
  · by_cases hc : m.tile = [] <;>
      simp [apply_ite ModInfo.tile, ModInfo.init, hc]
  · by_cases hc : m.authors = [] <;>
      simp [apply_ite ModInfo.authors, ModInfo.init, hc]
  · by_cases hc : m.version = [] <;>
      simp [apply_ite ModInfo.version, ModInfo.init, hc]
  · by_cases hc : m.url = [] <;>
      simp [apply_ite ModInfo.url, ModInfo.init, hc]
  · by_cases hc : m.modversion = [] <;>
      simp [apply_ite ModInfo.modversion, ModInfo.init, hc]
  · by_cases hc : m.pzversion = [] <;>
      simp [apply_ite ModInfo.pzversion, ModInfo.init, hc]
  · by_cases hc : m.require = [] <;>
      simp [apply_ite ModInfo.require, ModInfo.init, hc]

/-- Lists that disagree on their first `n` characters (with the candidate
at least `n` long) are not in the initial-segment relation. -/
theorem not_prefix_of_take_ne (l₁ l₂ : PyStr) (n : Nat)
    (h : l₁.take n ≠ l₂.take n) (hn : n ≤ l₁.length) : ¬ l₁ <+: l₂ := by
  intro hp
  obtain ⟨t, ht⟩ := hp
  exact h (by rw [← ht, List.take_append_of_le_length hn])

/-- An empty field contributes no `key=` line to the serialized output:
no serialized line starts with that field's key. -/
theorem toLines_no_empty_key (m : ModInfo) :
    (m.name = [] → ∀ l ∈ m.toLines, ¬ (str "name=" <+: l)) ∧
    (m.id = [] → ∀ l ∈ m.toLines, ¬ (str "id=" <+: l)) ∧
    (m.description = [] → ∀ l ∈ m.toLines, ¬ (str "description=" <+: l)) ∧
    (m.poster = [] → ∀ l ∈ m.toLines, ¬ (str "poster=" <+: l)) ∧
    (m.tile = [] → ∀ l ∈ m.toLines, ¬ (str "tile=" <+: l)) ∧
    (m.authors = [] → ∀ l ∈ m.toLines, ¬ (str "authors=" <+: l)) ∧
    (m.version = [] → ∀ l ∈ m.toLines, ¬ (str "version=" <+: l)) ∧
    (m.url = [] → ∀ l ∈ m.toLines, ¬ (str "url=" <+: l)) ∧
    (m.modversion = [] → ∀ l ∈ m.toLines, ¬ (str "modversion=" <+: l)) ∧
    (m.pzversion = [] → ∀ l ∈ m.toLines, ¬ (str "pzversion=" <+: l)) ∧
    (m.require = [] → ∀ l ∈ m.toLines, ¬ (str "require=" <+: l)) := by
  refine ⟨?_, ?_, ?_, ?_, ?_, ?_, ?_, ?_, ?_, ?_, ?_⟩ <;>
    (intro h l hl hp
     rw [mem_toLines] at hl
     rcases hl with ⟨hc, rfl⟩ | ⟨hc, rfl⟩ | ⟨hc, rfl⟩ | ⟨hc, rfl⟩ |
       ⟨hc, rfl⟩ | ⟨hc, rfl⟩ | ⟨hc, rfl⟩ | ⟨hc, rfl⟩ | ⟨hc, rfl⟩ |
       ⟨hc, rfl⟩ | ⟨hc, rfl⟩ <;>
       first
         | exact hc h
         | exact not_prefix_of_take_ne _ _ 2
             (by rw [List.take_append_of_le_length (by decide)]; decide)
             (by decide) hp)

/-- C1 (counterexample): a record with every field non-empty whose `name`
value has a leading space.  Serialization writes the value verbatim, but
parsing trims it, so `parse(serialize(record))` does not reproduce the
non-empty `name` field with the same value, contradicting the claim as
stated. -/
theorem c1_counterexample :
    c1CexRecord.name ≠ [] ∧ c1CexRecord.id ≠ [] ∧
    c1CexRecord.description ≠ [] ∧ c1CexRecord.poster ≠ [] ∧
    c1CexRecord.tile ≠ [] ∧ c1CexRecord.authors ≠ [] ∧
    c1CexRecord.version ≠ [] ∧ c1CexRecord.url ≠ [] ∧
    c1CexRecord.modversion ≠ [] ∧ c1CexRecord.pzversion ≠ [] ∧
    c1CexRecord.require ≠ [] ∧
    (ModInfo.parseContent ModInfo.init c1CexRecord.toString).name ≠
      c1CexRecord.name := by decide

/-- C1 (amended): for every record whose field values are trimmed (equal
to their own strip) and newline-free, and whose `require` entries are in
addition nonempty and comma-free, parsing the text produced by serialize
reproduces every field that was non-empty in the original with the same
value (empty `version`/`pzversion` parse back to their constructor
defaults `1.0`/`b42`; all other empty fields stay empty), and a field left
empty produces no `key=` line at all in the serialized form. -/
theorem c1_roundtrip (m : ModInfo)
    (hname : pyStrip m.name = m.name ∧ '\n' ∉ m.name)
    (hid : pyStrip m.id = m.id ∧ '\n' ∉ m.id)
    (hdesc : pyStrip m.description = m.description ∧ '\n' ∉ m.description)
    (hposter : pyStrip m.poster = m.poster ∧ '\n' ∉ m.poster)
    (htile : pyStrip m.tile = m.tile ∧ '\n' ∉ m.tile)
    (hauth : pyStrip m.authors = m.authors ∧ '\n' ∉ m.authors)
    (hver : pyStrip m.version = m.version ∧ '\n' ∉ m.version)
    (hurl : pyStrip m.url = m.url ∧ '\n' ∉ m.url)
    (hmodv : pyStrip m.modversion = m.modversion ∧ '\n' ∉ m.modversion)
    (hpzv : pyStrip m.pzversion = m.pzversion ∧ '\n' ∉ m.pzversion)
    (hreq : ∀ r ∈ m.require, r ≠ [] ∧ pyStrip r = r ∧ '\n' ∉ r ∧ ',' ∉ r) :
    (ModInfo.parseContent ModInfo.init m.toString =
      { m with
        version := if m.version = [] then str "1.0" else m.version,
        pzversion := if m.pzversion = [] then str "b42" else m.pzversion }) ∧
    (m.name = [] → ∀ l ∈ m.toLines, ¬ (str "name=" <+: l)) ∧
    (m.id = [] → ∀ l ∈ m.toLines, ¬ (str "id=" <+: l)) ∧
    (m.description = [] → ∀ l ∈ m.toLines, ¬ (str "description=" <+: l)) ∧
    (m.poster = [] → ∀ l ∈ m.toLines, ¬ (str "poster=" <+: l)) ∧
    (m.tile = [] → ∀ l ∈ m.toLines, ¬ (str "tile=" <+: l)) ∧
    (m.authors = [] → ∀ l ∈ m.toLines, ¬ (str "authors=" <+: l)) ∧
    (m.version = [] → ∀ l ∈ m.toLines, ¬ (str "version=" <+: l)) ∧
    (m.url = [] → ∀ l ∈ m.toLines, ¬ (str "url=" <+: l)) ∧
    (m.modversion = [] → ∀ l ∈ m.toLines, ¬ (str "modversion=" <+: l)) ∧
    (m.pzversion = [] → ∀ l ∈ m.toLines, ¬ (str "pzversion=" <+: l)) ∧
    (m.require = [] → ∀ l ∈ m.toLines, ¬ (str "require=" <+: l)) :=
  ⟨roundTrip_core m hname hid hdesc hposter htile hauth hver hurl hmodv
    hpzv hreq, toLines_no_empty_key m⟩

/-- C1 (witness): the amended round-trip theorem applied to a concrete
fully-populated record gives an exact round trip. -/
theorem c1_roundtrip_witness :
    ModInfo.parseContent ModInfo.init c1WitRecord.toString = c1WitRecord := by
  have h := c1_roundtrip c1WitRecord (by decide) (by decide) (by decide)
    (by decide) (by decide) (by decide) (by decide) (by decide) (by decide)
    (by decide) (by decide)
  exact h.1.trans (by decide)

/-- C8: the record's own `validate` reports, in this fixed order:
missing-name, missing-id, invalid-id-format (only when `id` is
non-empty), missing-description; several issues can coexist (the order
statement is the sublist clause, which also pins each issue's position),
and `validate` is a total function (it reports, never raises). -/
theorem c8_record_validate (m : ModInfo) :
    (str "Mod name is required" ∈ ModInfo.validate m ↔ m.name = []) ∧
    (str "Mod ID is required" ∈ ModInfo.validate m ↔ m.id = []) ∧
    (str "Mod ID must contain only letters, numbers, and underscores" ∈
        ModInfo.validate m ↔ (m.id ≠ [] ∧ idFormatOk m.id = false)) ∧
    (str "Mod description is required" ∈ ModInfo.validate m ↔
      m.description = []) ∧
    List.Sublist (ModInfo.validate m)
      [str "Mod name is required", str "Mod ID is required",
       str "Mod ID must contain only letters, numbers, and underscores",
       str "Mod description is required"] := by
  by_cases h1 : m.name = [] <;> by_cases h2 : m.id = [] <;>
    by_cases h3 : idFormatOk m.id <;> by_cases h4 : m.description = [] <;>
    simp [ModInfo.validate, h1, h2, h3, h4]

/-- The issues of a validation run are the four groups in program order. -/
theorem validate_issues (b : ModBuilder) (w : World) :
    (ModBuilder.validate b w).1 =
      ((b.infoIssues w ++ b.posterIssues w) ++ b.tileIssues w) ++
        extensionIssues w.rootEntries := by
  cases hmi : b.modInfo <;>
    simp [ModBuilder.validate, World.existsOp, World.rglobOp, hmi] <;>
    split_ifs <;> rfl

/-- Every record-validation message starts with `M`. -/
theorem mem_record_validate_head (m : ModInfo) (s : PyStr)
    (hs : s ∈ ModInfo.validate m) : s.head? = some 'M' := by
  simp only [ModInfo.validate, List.mem_append, mem_opt_last] at hs
  rcases hs with ((⟨-, rfl⟩ | ⟨-, rfl⟩) | ⟨-, rfl⟩) | ⟨-, rfl⟩ <;> rfl

/-- Every descriptor-group message starts with `M`. -/
theorem mem_infoIssues_head (b : ModBuilder) (w : World) (s : PyStr)
    (hs : s ∈ b.infoIssues w) : s.head? = some 'M' := by
  rw [ModBuilder.infoIssues] at hs
  by_cases h : (w.existsOp (str "mod.info")).1 = false
  · rw [if_pos h] at hs
    simp at hs
    rw [hs]; rfl
  · rw [if_neg h] at hs
    cases hmi : b.modInfo with
    | none => rw [hmi] at hs; simp at hs
    | some mi => rw [hmi] at hs; exact mem_record_validate_head mi s hs

/-- Every poster-group message starts with `P` or `I`. -/
theorem mem_posterIssues_head (b : ModBuilder) (w : World) (s : PyStr)
    (hs : s ∈ b.posterIssues w) :
    s.head? = some 'P' ∨ s.head? = some 'I' := by
  cases hmi : b.modInfo with
  | none => simp [ModBuilder.posterIssues, hmi] at hs
  | some mi =>
    simp only [ModBuilder.posterIssues, hmi] at hs
    split_ifs at hs with h1 h2 h3
    · simp at hs; rw [hs]; exact Or.inl rfl
    · simp at hs
    · simp at hs; rw [hs]; exact Or.inr rfl
    · simp at hs

/-- Every tile-group message starts with `T` or `I`. -/
theorem mem_tileIssues_head (b : ModBuilder) (w : World) (s : PyStr)
    (hs : s ∈ b.tileIssues w) :
    s.head? = some 'T' ∨ s.head? = some 'I' := by
  cases hmi : b.modInfo with
  | none => simp [ModBuilder.tileIssues, hmi] at hs
  | some mi =>
    simp only [ModBuilder.tileIssues, hmi] at hs
    split_ifs at hs with h1 h2 h3
    · simp at hs; rw [hs]; exact Or.inl rfl
    · simp at hs
    · simp at hs; rw [hs]; exact Or.inr rfl
    · simp at hs

/-- An extension-loop hit is the unusual-extension message for that
entry's path. -/
theorem extFlag_eq_some (e : Entry) (s : PyStr) (h : extFlag e = some s) :
    s = str "Unusual file extension: " ++ e.path ∧ e.isFile = true ∧
      baseName e.path ≠ str "mod.info" ∧ entryExt e ≠ [] ∧
      entryExt e ∉ VALID_EXTENSIONS := by
  rw [extFlag] at h
  split_ifs at h with h1 h2
  exact ⟨(Option.some.inj h).symm, h1.1, h1.2, h2.1, h2.2⟩

/-- Every extension-group message starts with `U`. -/
theorem mem_extensionIssues_head (es : List Entry) (s : PyStr)
    (hs : s ∈ extensionIssues es) : s.head? = some 'U' := by
  obtain ⟨e, -, hf⟩ := List.mem_filterMap.mp hs
  rw [(extFlag_eq_some e s hf).1]
  rfl

/-- C9: the Validation Engine is read-only — the filesystem state
threaded through every probe of a validation run comes back unchanged
(no file or directory is created, modified or deleted). -/
theorem c9_validate_readonly (b : ModBuilder) (w : World) :
    (ModBuilder.validate b w).2 = w := by
  cases hmi : b.modInfo <;>
    simp [ModBuilder.validate, World.existsOp, World.rglobOp, hmi] <;>
    split_ifs <;> rfl

/-- C7: with no descriptor at the fixed relative path (and hence no
record loaded at construction), validation reports the single
missing-descriptor issue and still runs the extension checks — the
result is exactly that issue followed by the extension issues, and
contains no record-validation issue. -/
theorem c7_missing_descriptor (b : ModBuilder) (w : World)
    (hmiss : (w.existsOp (str "mod.info")).1 = false)
    (hnone : b.modInfo = none) :
    (ModBuilder.validate b w).1 =
      str "Missing mod.info file" :: extensionIssues w.rootEntries ∧
    str "Mod name is required" ∉ (ModBuilder.validate b w).1 ∧
    str "Mod ID is required" ∉ (ModBuilder.validate b w).1 ∧
    str "Mod ID must contain only letters, numbers, and underscores" ∉
      (ModBuilder.validate b w).1 ∧
    str "Mod description is required" ∉ (ModBuilder.validate b w).1 := by
  have heq : (ModBuilder.validate b w).1 =
      str "Missing mod.info file" :: extensionIssues w.rootEntries := by
    rw [validate_issues, ModBuilder.infoIssues, if_pos hmiss,
      ModBuilder.posterIssues, ModBuilder.tileIssues, hnone]
    simp
  refine ⟨heq, ?_, ?_, ?_, ?_⟩ <;>
    (rw [heq]
     intro hmem
     rcases List.mem_cons.mp hmem with h | h
     · exact absurd h.symm (by decide)
     · exact absurd (mem_extensionIssues_head w.rootEntries _ h) (by decide))

/-- C7 (witness): on a concrete descriptor-less root the validation run
reports the missing descriptor and still flags the unusual extension. -/
theorem c7_missing_descriptor_witness :
    (c7WitWorld.existsOp (str "mod.info")).1 = false ∧
    (ModBuilder.validate c7WitBuilder c7WitWorld).1 =
      [str "Missing mod.info file",
       str "Unusual file extension: thing.obj"] :=
  ⟨by decide, by
    have h := c7_missing_descriptor c7WitBuilder c7WitWorld (by decide) rfl
    rw [h.1]; decide⟩

/-- C6: with a record loaded, a declared non-empty `poster` yields the
not-found issue exactly when the path is absent, and otherwise the
invalid-image issue exactly when open-and-verify fails; the same holds
independently for `tile`; and when both images are declared and missing
the run (a total function — nothing is raised) reports exactly one issue
per image, poster before tile. -/
theorem c6_image_checks (b : ModBuilder) (w : World) (mi : ModInfo)
    (hmi : b.modInfo = some mi) :
    (mi.poster ≠ [] → (w.existsOp mi.poster).1 = false →
      b.posterIssues w = [str "Poster image not found: " ++ mi.poster]) ∧
    (mi.poster ≠ [] → (w.existsOp mi.poster).1 = true →
      b.posterIssues w =
        (if (w.openVerifyOp mi.poster).1 = true then []
         else [str "Invalid poster image: " ++ mi.poster])) ∧
    (mi.tile ≠ [] → (w.existsOp mi.tile).1 = false →
      b.tileIssues w = [str "Tile image not found: " ++ mi.tile]) ∧
    (mi.tile ≠ [] → (w.existsOp mi.tile).1 = true →
      b.tileIssues w =
        (if (w.openVerifyOp mi.tile).1 = true then []
         else [str "Invalid tile image: " ++ mi.tile])) ∧
    (mi.poster ≠ [] → mi.tile ≠ [] →
      (w.existsOp mi.poster).1 = false → (w.existsOp mi.tile).1 = false →
      (ModBuilder.validate b w).1 =
        b.infoIssues w ++
          ([str "Poster image not found: " ++ mi.poster] ++
            ([str "Tile image not found: " ++ mi.tile] ++
              extensionIssues w.rootEntries))) := by
  have hpos1 : mi.poster ≠ [] → (w.existsOp mi.poster).1 = false →
      b.posterIssues w = [str "Poster image not found: " ++ mi.poster] := by
    intro h1 h2
    simp only [ModBuilder.posterIssues, hmi]
    rw [if_pos h1, if_pos h2]
  have hpos2 : mi.poster ≠ [] → (w.existsOp mi.poster).1 = true →
      b.posterIssues w =
        (if (w.openVerifyOp mi.poster).1 = true then []
         else [str "Invalid poster image: " ++ mi.poster]) := by
    intro h1 h2
    simp only [ModBuilder.posterIssues, hmi]
    rw [if_pos h1, if_neg (by simp [h2])]
  have htil1 : mi.tile ≠ [] → (w.existsOp mi.tile).1 = false →
      b.tileIssues w = [str "Tile image not found: " ++ mi.tile] := by
    intro h1 h2
    simp only [ModBuilder.tileIssues, hmi]
    rw [if_pos h1, if_pos h2]
  have htil2 : mi.tile ≠ [] → (w.existsOp mi.tile).1 = true →
      b.tileIssues w =
        (if (w.openVerifyOp mi.tile).1 = true then []
         else [str "Invalid tile image: " ++ mi.tile]) := by
    intro h1 h2
    simp only [ModBuilder.tileIssues, hmi]
    rw [if_pos h1, if_neg (by simp [h2])]
  refine ⟨hpos1, hpos2, htil1, htil2, ?_⟩
  intro hp ht hep het
  rw [validate_issues, hpos1 hp hep, htil1 ht het]
  simp [List.append_assoc]

/-- C6 (witness): a root whose descriptor declares `poster.png` and
`tile.png` and contains neither yields exactly the two not-found issues,
poster first. -/
theorem c6_image_checks_witness :
    (ModBuilder.validate c6WitBuilder c6WitWorld).1 =
      [str "Poster image not found: poster.png",
       str "Tile image not found: tile.png"] := by
  have h := c6_image_checks c6WitBuilder c6WitWorld c6WitInfo rfl
  rw [h.2.2.2.2 (by decide) (by decide) (by decide) (by decide)]
  decide

/-- C3 (counterexample): `sub/mod.info` is a file other than the
descriptor, with non-empty extension `.info` outside the whitelist, yet
validation emits no issue for it — the code exempts every file *named*
`mod.info`, not just the descriptor file itself. -/
theorem c3_counterexample :
    (∃ e ∈ c3CexWorld.rootEntries, e.isFile = true ∧
      e.path = str "sub/mod.info" ∧ e.path ≠ str "mod.info" ∧
      entryExt e ≠ [] ∧ entryExt e ∉ VALID_EXTENSIONS) ∧
    str "Unusual file extension: sub/mod.info" ∉
      (ModBuilder.validate c3CexBuilder c3CexWorld).1 := by decide

/-- C3 (amended): validation reports `unusual file extension: <path>`
for exactly those files whose *name* is not `mod.info` (so any file named
`mod.info`, at any depth, is exempt — not only the root descriptor) and
whose lowercased extension is non-empty and outside the fixed whitelist;
files with no extension are never flagged. -/
theorem c3_extension_flag (b : ModBuilder) (w : World) (p : PyStr) :
    (str "Unusual file extension: " ++ p) ∈ (ModBuilder.validate b w).1 ↔
      ∃ e ∈ w.rootEntries, e.path = p ∧ e.isFile = true ∧
        baseName e.path ≠ str "mod.info" ∧ entryExt e ≠ [] ∧
        entryExt e ∉ VALID_EXTENSIONS := by
  rw [validate_issues]
  constructor
  · intro hmem
    rcases List.mem_append.mp hmem with h | h
    · rcases List.mem_append.mp h with h2 | h2
      · rcases List.mem_append.mp h2 with h3 | h3
        · have hh := mem_infoIssues_head b w _ h3
          rw [show (str "Unusual file extension: " ++ p).head? = some 'U'
            from rfl] at hh
          exact absurd hh (by decide)
        · rcases mem_posterIssues_head b w _ h3 with hh | hh
          all_goals
            (rw [show (str "Unusual file extension: " ++ p).head? = some 'U'
              from rfl] at hh
             exact absurd hh (by decide))
      · rcases mem_tileIssues_head b w _ h2 with hh | hh
        all_goals
          (rw [show (str "Unusual file extension: " ++ p).head? = some 'U'
            from rfl] at hh
           exact absurd hh (by decide))
    · obtain ⟨e, he, hf⟩ := List.mem_filterMap.mp h
      obtain ⟨hmsg, hfile, hbase, hext, hnotin⟩ := extFlag_eq_some e _ hf
      exact ⟨e, he, (List.append_cancel_left hmsg).symm, hfile, hbase,
        hext, hnotin⟩
  · rintro ⟨e, he, hp, hfile, hbase, hext, hnotin⟩
    apply List.mem_append.mpr
    right
    apply List.mem_filterMap.mpr
    refine ⟨e, he, ?_⟩
    rw [extFlag, if_pos ⟨hfile, hbase⟩, if_pos ⟨hext, hnotin⟩, hp]

/-- Extension issues are emitted in traversal order: the issue list is a
sublist of the per-entry message list taken in `rglob` order. -/
theorem extensionIssues_sublist (es : List Entry) :
    List.Sublist (extensionIssues es)
      (es.map (fun e => str "Unusual file extension: " ++ e.path)) := by
  induction es with
  | nil => simp [extensionIssues]
  | cons e es ih =>
    rw [extensionIssues] at ih ⊢
    cases hf : extFlag e with
    | none =>
      rw [List.filterMap_cons, hf, List.map_cons]
      exact ih.cons _
    | some s =>
      rw [List.filterMap_cons, hf, List.map_cons,
        (extFlag_eq_some e s hf).1]
      exact ih.cons₂ _

/-- C2 (counterexample): the extension issues come out in traversal order
(`b.bad` before `a/x.bad`), while the Directory Scanner's sorted file
list puts `a/x.bad` first — so the issue list does not follow the sorted
file order claimed. -/
theorem c2_counterexample :
    (ModBuilder.validate c2CexBuilder c2CexWorld).1 =
      [str "Missing mod.info file", str "Unusual file extension: b.bad",
       str "Unusual file extension: a/x.bad"] ∧
    getFileList c2CexWorld = [str "a/x.bad", str "b.bad"] ∧
    (ModBuilder.validate c2CexBuilder c2CexWorld).1 ≠
      str "Missing mod.info file" ::
        (getFileList c2CexWorld).map
          (fun p => str "Unusual file extension: " ++ p) := by decide

/-- C2 (amended): a validation run returns the descriptor-presence group,
then the record-validation issues, then the poster issues, then the tile
issues, then the extension issues — and the extension issues appear in
the recursive traversal (`rglob`) order of the scan, which is not in
general the Directory Scanner's lexicographically sorted file order. -/
theorem c2_issue_order (b : ModBuilder) (w : World) :
    (ModBuilder.validate b w).1 =
      ((b.infoIssues w ++ b.posterIssues w) ++ b.tileIssues w) ++
        extensionIssues w.rootEntries ∧
    List.Sublist (extensionIssues w.rootEntries)
      (w.rootEntries.map (fun e => str "Unusual file extension: " ++ e.path)) :=
  ⟨validate_issues b w, extensionIssues_sublist w.rootEntries⟩

/-- Looking up the binding just written. -/
theorem lookup_setOutput (out : List (PyStr × Artifact)) (k : PyStr)
    (v : Artifact) : lookupOutput (setOutput out k v) k = some v := by
  simp [lookupOutput, setOutput]

/-- The zip entry list is the dotfile-filtered file list of the
traversal. -/
theorem zipFileList_eq (es : List Entry) :
    zipFileList es =
      ((es.filter (·.isFile)).map (·.path)).filter
        (fun p => startsWithChar '.' (baseName p) = false) := by
  induction es with
  | nil => rfl
  | cons e es ih =>
    rw [zipFileList] at ih ⊢
    by_cases hf : e.isFile = true <;>
      by_cases hd : startsWithChar '.' (baseName e.path) = false <;>
      simp [List.filterMap_cons, List.filter_cons, hf, hd, ih]

/-- C4: building with the archive option writes a single archive at
`<modName>.zip` (modName from the record's `id` when loaded and
non-empty, else the root directory name), replacing in full whatever was
bound at that path before; its entry set is `list_files` minus the files
whose own name starts with a dot; entries are root-relative paths of
regular files only (no directory entries). -/
theorem c4_build_archive (b : ModBuilder) (w : World) :
    (ModBuilder.build b true w).1 = b.modName ++ str ".zip" ∧
    lookupOutput (ModBuilder.build b true w).2.output
        (b.modName ++ str ".zip") =
      some (.zipArchive (zipFileList w.rootEntries)) ∧
    (zipFileList w.rootEntries).toFinset =
      ((getFileList w).filter
        (fun p => startsWithChar '.' (baseName p) = false)).toFinset ∧
    (∀ p ∈ zipFileList w.rootEntries,
      ∃ e ∈ w.rootEntries, e.isFile = true ∧ e.path = p) := by
  refine ⟨rfl, ?_, ?_, ?_⟩
  · exact lookup_setOutput w.output _ _
  · have hperm : List.Perm
        ((getFileList w).filter
          (fun p => startsWithChar '.' (baseName p) = false))
        (((w.rootEntries.filter (·.isFile)).map (·.path)).filter
          (fun p => startsWithChar '.' (baseName p) = false)) :=
      (List.perm_insertionSort _ _).filter _
    rw [zipFileList_eq]
    exact (List.toFinset_eq_of_perm _ _ hperm).symm
  · intro p hp
    rw [zipFileList_eq] at hp
    obtain ⟨hp1, -⟩ := List.mem_filter.mp hp
    obtain ⟨e, he, hpe⟩ := List.mem_map.mp hp1
    exact ⟨e, (List.mem_filter.mp he).1, (List.mem_filter.mp he).2, hpe⟩

/-- C5: building without the archive option copies the entire root tree
(every traversal entry, no filtering) to the `<modName>` output binding,
removing and replacing any previous content at that destination, so
nothing present only in the old output survives a rebuild. -/
theorem c5_build_directory (b : ModBuilder) (w : World) :
    (ModBuilder.build b false w).1 = b.modName ∧
    lookupOutput (ModBuilder.build b false w).2.output b.modName =
      some (.dirCopy w.rootEntries) ∧
    (∀ a : Artifact,
      lookupOutput (ModBuilder.build b false w).2.output b.modName = some a →
        a = .dirCopy w.rootEntries) := by
  refine ⟨rfl, lookup_setOutput w.output _ _, ?_⟩
  intro a ha
  have hv := lookup_setOutput w.output b.modName (Artifact.dirCopy w.rootEntries)
  exact (Option.some.inj (hv.symm.trans ha)).symm

/-- C10: the archive filter tests only the file's own base name for a
leading dot, so a regular file inside a hidden directory is archived,
while a file whose own name starts with a dot never is. -/
theorem c10_hidden_dir_files (w : World) (e : Entry)
    (he : e ∈ w.rootEntries) (hf : e.isFile = true)
    (hb : startsWithChar '.' (baseName e.path) = false) :
    e.path ∈ zipFileList w.rootEntries ∧
    (∀ p, startsWithChar '.' (baseName p) = true →
      p ∉ zipFileList w.rootEntries) := by
  constructor
  · apply List.mem_filterMap.mpr
    refine ⟨e, he, ?_⟩
    show (if e.isFile ∧ startsWithChar '.' (baseName e.path) = false
      then some e.path else none) = some e.path
    rw [if_pos ⟨hf, hb⟩]
  · intro p hp hmem
    rw [zipFileList_eq] at hmem
    obtain ⟨-, hcond⟩ := List.mem_filter.mp hmem
    have hfalse := of_decide_eq_true hcond
    rw [hfalse] at hp
    exact absurd hp (by decide)

/-- C10 (witness): `.cache/data.txt` is archived even though it lives in
a hidden directory; the dotfile `.hidden` is skipped. -/
theorem c10_hidden_dir_files_witness :
    str ".cache/data.txt" ∈ zipFileList c10World.rootEntries ∧
    str ".hidden" ∉ zipFileList c10World.rootEntries := by
  have h := c10_hidden_dir_files c10World
    ⟨str ".cache/data.txt", true, false⟩ (by decide) (by decide) (by decide)
  exact ⟨h.1, h.2 (str ".hidden") (by decide)⟩

example : baseName (str "a/b/c.txt") = str "c.txt" := by decide
example : pySuffix (str "mod.info") = str ".info" := by decide
example : pySuffix (str ".bashrc") = [] := by decide
example : pySuffix (str "foo.") = [] := by decide
example : pySuffix (str "a.tar.GZ") = str ".GZ" := by decide
example : entryExt ⟨str "x/T.PNG", true, false⟩ = str ".png" := by decide
example : pyStrip (str "  ab c\t") = str "ab c" := by decide
example : splitOnChar '\n' (str "a\n\nb") = [str "a", [], str "b"] := by decide
example : splitFirst '=' (str "key=a=b") = (str "key", str "a=b") := by decide
example : joinChar ',' [str "a", str "b"] = str "a,b" := by decide
example : idFormatOk (str "Ab_9") = true := by decide
example : idFormatOk (str "Ab 9") = false := by decide
example : idFormatOk (str "Ab9" ++ ['\n']) = true := by decide
example :
    ModInfo.parseContent ModInfo.init (str "name=Test Mod\nid=TestMod\n# c\nx\n") =
      { ModInfo.init with name := str "Test Mod", id := str "TestMod" } := by decide
example :
    (ModInfo.parseContent ModInfo.init (str "require=a, b ,,c")).require =
      [str "a", str "b", str "c"] := by decide
